import Mathlib

/-!
Verification of the Conversational-AI-with-RAG repository core
(`src/llm_manager.py`, `src/rag_pipeline.py`) against its specification.

The Python code is shallowly embedded: dicts with fixed keys become
structures, the provider objects become generation functions
`List Message → String`, and the module-level singletons become explicit
state values threaded through the functions.
-/

namespace RAG

/-- A chat message dict `{"role": ..., "content": ...}` (`ConversationTurn`). -/
structure Message where
  role : String
  content : String
deriving DecidableEq, Repr

/-- A registered LLM provider, abstracted to its `generate` method
(`BaseLLM.generate : messages -> str`). -/
def Provider : Type := List Message → String

/-- `LLMManager` state: the `llms` dict (association list, insertion order
kept as Python dicts do) and the `active_provider` field (`None` or a name). -/
structure LLMManager where
  llms : List (String × Provider)
  active_provider : Option String

/-- Python truthiness fallback `provider or self.active_provider`:
`None` and the empty string are falsy. -/
def pyOrStr (a b : Option String) : Option String :=
  match a with
  | none => b
  | some s => if s = "" then b else some s

/-- `dict.get(key)` on the `llms` dict; a `None` key is found nowhere. -/
def LLMManager.lookup (m : LLMManager) (key : Option String) : Option Provider :=
  match key with
  | none => none
  | some s => (m.llms.find? (fun p => p.1 = s)).map (fun p => p.2)

/-- `LLMManager.get_llm`: `provider = provider or self.active_provider;
return self.llms.get(provider)`. -/
def LLMManager.get_llm (m : LLMManager) (provider : Option String) : Option Provider :=
  m.lookup (pyOrStr provider m.active_provider)

/-- `LLMManager.set_active_provider`: if the name is a key of `llms`, set it
active and return `True`; otherwise return `False` leaving the state as is.
The returned pair is (new state, Python return value). -/
def LLMManager.set_active_provider (m : LLMManager) (provider : String) :
    LLMManager × Bool :=
  if (m.llms.find? (fun p => p.1 = provider)).isSome then
    ({ m with active_provider := some provider }, true)
  else
    (m, false)

/-- The literal string returned by `LLMManager.generate_response` when
`get_llm` yields no provider. -/
def noProviderMsg : String := "Error: No LLM provider available"

/-- `LLMManager.generate_response`: resolve the provider via `get_llm`; if
none, return the fixed error string, else call its `generate`. -/
def LLMManager.generate_response (m : LLMManager) (messages : List Message)
    (provider : Option String) : String :=
  match m.get_llm provider with
  | none => noProviderMsg
  | some llm => llm messages

/-! ### ChunkSplitter

`RAGPipeline.__init__` configures langchain's `RecursiveCharacterTextSplitter`
with `chunk_size = config.CHUNK_SIZE`, `chunk_overlap = config.CHUNK_OVERLAP`,
`length_function = len` and `separators = ["\n\n", "\n", " ", ""]`.  The
splitting algorithm itself lives in the external langchain dependency, not in
this repository, so it is modelled from the spec below. -/

/-- Python-style `join`: concatenate the pieces with `sep` between
consecutive pieces. -/
def joinSep (sep : String) : List String → String
  | [] => ""
  | [a] => a
  | a :: b :: t => a ++ sep ++ joinSep sep (b :: t)

/-- Character length of `joinSep sep l`: the summed piece lengths plus one
separator between consecutive pieces. -/
def weight (sepLen : Nat) (l : List String) : Nat :=
  (l.map String.length).sum + sepLen * (l.length - 1)

/-- Splitting one level: split on the separator, the empty separator
splitting into single characters. -/
def pySplit (sep : String) (text : String) : List String :=
  if sep = "" then text.toList.map (fun c => String.singleton c)
  else text.splitOn sep

/-- Modelled from the spec: the overlap step of the greedy packer.  After a
chunk is emitted, segments are dropped from the front of the working buffer
until what remains fits below the overlap budget and leaves room for the next
segment — "Consecutive chunks overlap by `overlap` characters, taken from the
tail of the previous chunk content". -/
def popOverlap (chunkSize overlap sepLen segLen : Nat) : List String → List String
  | [] => []
  | c :: cs =>
    if overlap < weight sepLen (c :: cs) ∨
        chunkSize < weight sepLen (c :: cs) + sepLen + segLen then
      popOverlap chunkSize overlap sepLen segLen cs
    else
      c :: cs

/-- Modelled from the spec: "resulting segments are greedily packed into
chunks not exceeding `chunkSize` characters".  `current` is the working
buffer of segments of the chunk being built; when the next segment would
overflow, the buffer is emitted as a chunk and restarted from its overlap
tail. -/
def mergeGo (chunkSize overlap : Nat) (sep : String) :
    List String → List String → List String
  | current, [] =>
    match current with
    | [] => []
    | c :: cs => [joinSep sep (c :: cs)]
  | current, seg :: rest =>
    if current ≠ [] ∧ chunkSize < weight sep.length current + sep.length + seg.length then
      joinSep sep current ::
        mergeGo chunkSize overlap sep
          (popOverlap chunkSize overlap sep.length seg.length current ++ [seg]) rest
  else
      mergeGo chunkSize overlap sep (current ++ [seg]) rest

/-- Modelled from the spec: walk the segments of one separator level; runs of
segments that fit within `chunkSize` are greedily packed, and "when a segment
alone exceeds `chunkSize`", `recFn` (recursion into the next finer separator)
handles it. -/
def mergeRuns (chunkSize overlap : Nat) (sep : String) (recFn : String → List String) :
    List String → List String → List String
  | buffer, [] => mergeGo chunkSize overlap sep [] buffer
  | buffer, seg :: rest =>
    if chunkSize < seg.length then
      mergeGo chunkSize overlap sep [] buffer ++ recFn seg ++
        mergeRuns chunkSize overlap sep recFn [] rest
    else
      mergeRuns chunkSize overlap sep recFn (buffer ++ [seg]) rest

/-- Modelled from the spec: `ChunkSplitter.split` — "recursively attempt to
split on an ordered list of separators from coarsest to finest"; empty
segments are dropped; a segment exceeding `chunkSize` recurses into the next
finer separator.  The langchain implementation this stands in for is external
to the repository. -/
def split_text (chunkSize overlap : Nat) : List String → String → List String
  | [], text => [text]
  | sep :: restSeps, text =>
    let segs := (pySplit sep text).filter (fun s => s ≠ "")
    mergeRuns chunkSize overlap sep (split_text chunkSize overlap restSeps) [] segs

/-- The separator priority list configured in `RAGPipeline.__init__`. -/
def ragSeparators : List String := ["\n\n", "\n", " ", ""]

/-! ### RAGPipeline: response generation and chat (`src/rag_pipeline.py`) -/

/-- A retrieved context item as `vector_store.search` returns it; the
pipeline reads only its `text` key. -/
structure CtxDoc where
  text : String
deriving DecidableEq, Repr

/-- The fixed degraded message returned on empty retrieval. -/
def insufficientInfoMsg : String :=
  "I don't have enough information to answer that question. Please try rephrasing or ask about a different topic."

/-- The labeled context lines: `"Context " ++ (i+1) ++ ": " ++ doc["text"]`
for `i, doc in enumerate(context)`. -/
def labeledContext (context : List CtxDoc) : List String :=
  context.enum.map (fun p => "Context " ++ toString (p.1 + 1) ++ ": " ++ p.2.text)

/-- `context_text`: the labeled lines joined with a blank line. -/
def context_text (context : List CtxDoc) : String :=
  joinSep "\n\n" (labeledContext context)

/-- The system prompt's text before the interpolated `context_text`
(the f-string keeps the Python source's indentation). -/
def sysPrefix : String :=
  "You are a helpful AI assistant. Use the following context to answer the user's question. \n            If the context doesn't contain enough information to answer the question, say so.\n            \n            Context:\n            "

/-- The system prompt's text after the interpolated `context_text`. -/
def sysSuffix : String :=
  "\n            \n            Answer the user's question based on the context provided."

/-- `system_message`: the f-string assembling the grounding instruction
around `context_text`. -/
def system_message (context : List CtxDoc) : String :=
  sysPrefix ++ context_text context ++ sysSuffix

/-- The two-turn request `RAGPipeline.generate_response` builds for the
provider: the system instruction and the user's query. -/
def ragMessages (query : String) (context : List CtxDoc) : List Message :=
  [⟨"system", system_message context⟩, ⟨"user", query⟩]

/-- `RAGPipeline.generate_response`: retrieve via `search` when no context is
passed; on empty context return the fixed degraded message; otherwise call
`llm_manager.generate_response` on the two-turn request.  `search` stands for
`vector_store.search` (the vector store is injected state). -/
def generate_response (m : LLMManager) (search : String → List CtxDoc)
    (query : String) (context : Option (List CtxDoc)) (provider : Option String) :
    String :=
  let ctx := match context with
    | none => search query
    | some c => c
  if ctx = [] then insufficientInfoMsg
  else m.generate_response (ragMessages query ctx) provider

/-- `RAGPipeline.chat`: reject an empty turn list and a last turn whose role
is not `"user"` with fixed strings; otherwise delegate the last turn's
content to `generate_response` with no explicit context. -/
def chat (m : LLMManager) (search : String → List CtxDoc)
    (messages : List Message) (provider : Option String) : String :=
  match messages.getLast? with
  | none => "No messages provided"
  | some last =>
    if last.role ≠ "user" then "Last message must be from user"
    else generate_response m search last.content none provider

/-! ### Document ingestion (`RAGPipeline.process_documents`) and the index -/

/-- A document handed to ingestion: the dict `id`/`text`/`metadata` keys the
code reads (`metadata` as an open key-value bag). -/
structure PyDoc where
  id : String
  text : String
  metadata : List (String × String)
deriving DecidableEq, Repr

/-- A chunk document as `process_documents` builds it: the generated `id`,
the chunk text, the user metadata bag, and the `chunk_index` /
`total_chunks` / `source_id` entries the code adds to the bag. -/
structure ChunkDoc where
  id : String
  text : String
  metadata : List (String × String)
  chunk_index : Nat
  total_chunks : Nat
  source_id : String
deriving DecidableEq, Repr

/-- Modelled from the spec: the `EmbeddingIndex` state, "mapping from chunk
id to (embedding, text, metadata)" — `vector_store.py` is not among the
repository files given, so the store is its spec shape: entries keyed by
chunk id, upsert overwriting an existing id.  Embeddings are abstracted away
(the claims below concern only the key set). -/
abbrev VectorStore : Type := List (String × ChunkDoc)

/-- The chunk ids currently stored. -/
def storeIds (store : VectorStore) : List String := store.map (fun p => p.1)

/-- Modelled from the spec: upsert of one chunk — "writes/overwrites entries
keyed by chunk id".  An already-present id has its entry overwritten in
place; a new id is appended. -/
def upsertOne (store : VectorStore) (c : ChunkDoc) : VectorStore :=
  if c.id ∈ storeIds store then
    store.map (fun p => if p.1 = c.id then (c.id, c) else p)
  else
    store ++ [(c.id, c)]

/-- Modelled from the spec: `vector_store.add_documents` — upsert every chunk
of the batch; an empty batch is valid and succeeds (the `Bool` is the Python
return value). -/
def add_documents (store : VectorStore) (chunks : List ChunkDoc) :
    VectorStore × Bool :=
  (chunks.foldl upsertOne store, true)

/-- The chunk documents `process_documents` builds for one input document:
one per splitter chunk, with id `doc["id"] ++ "_chunk_" ++ i` and the
metadata entries the code attaches. -/
def chunkDocs (chunkSize overlap : Nat) (doc : PyDoc) : List ChunkDoc :=
  let chunks := split_text chunkSize overlap ragSeparators doc.text
  chunks.enum.map (fun p =>
    { id := doc.id ++ "_chunk_" ++ toString p.1
      text := p.2
      metadata := doc.metadata
      chunk_index := p.1
      total_chunks := chunks.length
      source_id := doc.id })

/-- The result of `process_documents`: the new store, the Python `bool`
return value, and the counts the code computes for its summary line
(`len(documents)` documents into `len(processed_chunks)` chunks). -/
structure IngestResult where
  store : VectorStore
  success : Bool
  documentsIn : Nat
  chunksStored : Nat
deriving Repr

/-- `RAGPipeline.process_documents`: split every document into chunk
documents and store the whole batch via `add_documents`. -/
def process_documents (chunkSize overlap : Nat) (store : VectorStore)
    (documents : List PyDoc) : IngestResult :=
  let processed_chunks := documents.flatMap (chunkDocs chunkSize overlap)
  let out := add_documents store processed_chunks
  { store := out.1
    success := out.2
    documentsIn := documents.length
    chunksStored := processed_chunks.length }

/-- `appearsInOrder ls s`: the strings of `ls` occur in `s` as disjoint
substrings in the given order. -/
def appearsInOrder : List String → String → Prop
  | [], _ => True
  | l :: ls, s => ∃ s₁ s₂, s = s₁ ++ l ++ s₂ ∧ appearsInOrder ls s₂

end RAG

namespace RAG

/-! ### Helper lemmas -/

theorem pyOrStr_some_ne (s : String) (b : Option String) (h : s ≠ "") :
    pyOrStr (some s) b = some s := by
  simp [pyOrStr, h]

theorem lookup_nil_llms (m : LLMManager) (hm : m.llms = []) (key : Option String) :
    m.lookup key = none := by
  cases key with
  | none => rfl
  | some s => simp [LLMManager.lookup, hm]

theorem generate_response_nil_llms (m : LLMManager) (hm : m.llms = [])
    (messages : List Message) (provider : Option String) :
    m.generate_response messages provider = noProviderMsg := by
  unfold LLMManager.generate_response LLMManager.get_llm
  rw [lookup_nil_llms m hm]

theorem storeIds_upsertOne_mem (store : VectorStore) (c : ChunkDoc)
    (h : c.id ∈ storeIds store) :
    storeIds (upsertOne store c) = storeIds store := by
  unfold upsertOne
  rw [if_pos h]
  simp only [storeIds, List.map_map]
  apply List.map_congr_left
  intro p _
  by_cases hpc : p.1 = c.id
  · simp [Function.comp, hpc]
  · simp [Function.comp, hpc]

theorem storeIds_upsertOne_not_mem (store : VectorStore) (c : ChunkDoc)
    (h : c.id ∉ storeIds store) :
    storeIds (upsertOne store c) = storeIds store ++ [c.id] := by
  unfold upsertOne
  rw [if_neg h]
  simp [storeIds]

theorem mem_storeIds_upsertOne (store : VectorStore) (c : ChunkDoc) (k : String)
    (h : k ∈ storeIds store) : k ∈ storeIds (upsertOne store c) := by
  by_cases hc : c.id ∈ storeIds store
  · rwa [storeIds_upsertOne_mem store c hc]
  · rw [storeIds_upsertOne_not_mem store c hc]
    exact List.mem_append_left _ h

theorem self_mem_storeIds_upsertOne (store : VectorStore) (c : ChunkDoc) :
    c.id ∈ storeIds (upsertOne store c) := by
  by_cases hc : c.id ∈ storeIds store
  · rwa [storeIds_upsertOne_mem store c hc]
  · rw [storeIds_upsertOne_not_mem store c hc]
    exact List.mem_append_right _ (by simp)

theorem mem_storeIds_foldl (chunks : List ChunkDoc) :
    ∀ store : VectorStore, ∀ k ∈ storeIds store,
      k ∈ storeIds (chunks.foldl upsertOne store) := by
  induction chunks with
  | nil => intro store k h; exact h
  | cons c rest ih =>
    intro store k h
    exact ih (upsertOne store c) k (mem_storeIds_upsertOne store c k h)

theorem chunk_mem_storeIds_foldl (chunks : List ChunkDoc) :
    ∀ store : VectorStore, ∀ c ∈ chunks,
      c.id ∈ storeIds (chunks.foldl upsertOne store) := by
  induction chunks with
  | nil => intro store c h; cases h
  | cons d rest ih =>
    intro store c h
    rcases List.mem_cons.mp h with h | h
    · subst h
      exact mem_storeIds_foldl rest (upsertOne store c) c.id
        (self_mem_storeIds_upsertOne store c)
    · exact ih (upsertOne store d) c h

theorem storeIds_foldl_of_present (chunks : List ChunkDoc) :
    ∀ store : VectorStore, (∀ c ∈ chunks, c.id ∈ storeIds store) →
      storeIds (chunks.foldl upsertOne store) = storeIds store := by
  induction chunks with
  | nil => intro store _; rfl
  | cons c rest ih =>
    intro store h
    have hc : c.id ∈ storeIds store := h c (List.mem_cons_self c rest)
    have heq := storeIds_upsertOne_mem store c hc
    have hrest : ∀ d ∈ rest, d.id ∈ storeIds (upsertOne store c) := by
      intro d hd
      rw [heq]
      exact h d (List.mem_cons_of_mem c hd)
    calc storeIds ((c :: rest).foldl upsertOne store)
        = storeIds (rest.foldl upsertOne (upsertOne store c)) := rfl
      _ = storeIds (upsertOne store c) := ih (upsertOne store c) hrest
      _ = storeIds store := heq

theorem chunkDocs_ids (chunkSize overlap : Nat) (doc : PyDoc) :
    (chunkDocs chunkSize overlap doc).map (fun c => c.id) =
      (List.range (split_text chunkSize overlap ragSeparators doc.text).length).map
        (fun i => doc.id ++ "_chunk_" ++ toString i) := by
  unfold chunkDocs
  rw [List.map_map, ← List.enum_map_fst (split_text chunkSize overlap ragSeparators doc.text),
    List.map_map]
  rfl

theorem appearsInOrder_joinSep (sep : String) (ls : List String) :
    ∀ s₁ s₂ : String, appearsInOrder ls (s₁ ++ joinSep sep ls ++ s₂) := by
  induction ls with
  | nil => intro s₁ s₂; trivial
  | cons a tl ih =>
    intro s₁ s₂
    cases tl with
    | nil => exact ⟨s₁, s₂, rfl, trivial⟩
    | cons b t =>
      refine ⟨s₁, sep ++ joinSep sep (b :: t) ++ s₂, ?_, ih sep s₂⟩
      show s₁ ++ joinSep sep (a :: b :: t) ++ s₂ = _
      rw [joinSep]
      simp [String.append_assoc]

theorem labeledContext_getElem? (context : List CtxDoc) (k : Nat) (d : CtxDoc)
    (h : context[k]? = some d) :
    (labeledContext context)[k]? =
      some ("Context " ++ toString (k + 1) ++ ": " ++ d.text) := by
  unfold labeledContext
  rw [List.getElem?_map, List.getElem?_enum, h]
  rfl

theorem joinSep_length (sep : String) : ∀ l : List String,
    (joinSep sep l).length = weight sep.length l := by
  intro l
  induction l with
  | nil => simp [joinSep, weight]
  | cons a tl ih =>
    cases tl with
    | nil => simp [joinSep, weight]
    | cons b t =>
      rw [joinSep, String.length_append, String.length_append, ih]
      simp only [weight, List.map_cons, List.sum_cons, List.length_cons,
        Nat.succ_sub_one]
      ring

theorem weight_append_singleton (sepLen : Nat) (l : List String) (x : String)
    (h : l ≠ []) :
    weight sepLen (l ++ [x]) = weight sepLen l + sepLen + x.length := by
  cases l with
  | nil => cases h rfl
  | cons a t =>
    simp only [weight, List.map_append, List.sum_append, List.length_append,
      List.map_cons, List.sum_cons, List.length_cons, List.map_nil,
      List.sum_nil, List.length_nil, Nat.succ_sub_one]
    ring

theorem weight_append_singleton_le (sepLen : Nat) (l : List String) (x : String) :
    weight sepLen (l ++ [x]) ≤ weight sepLen l + sepLen + x.length := by
  cases l with
  | nil => simp [weight]
  | cons a t => rw [weight_append_singleton sepLen (a :: t) x (by simp)]

theorem popOverlap_bound (chunkSize overlap sepLen segLen : Nat) :
    ∀ l : List String,
      popOverlap chunkSize overlap sepLen segLen l = [] ∨
        weight sepLen (popOverlap chunkSize overlap sepLen segLen l) + sepLen +
            segLen ≤ chunkSize := by
  intro l
  induction l with
  | nil => left; rfl
  | cons c cs ih =>
    unfold popOverlap
    by_cases hcond : overlap < weight sepLen (c :: cs) ∨
        chunkSize < weight sepLen (c :: cs) + sepLen + segLen
    · rw [if_pos hcond]
      exact ih
    · rw [if_neg hcond]
      right
      push_neg at hcond
      exact hcond.2

theorem mergeGo_bound (chunkSize overlap : Nat) (sep : String) :
    ∀ segs current : List String,
      weight sep.length current ≤ chunkSize →
      (∀ s ∈ segs, s.length ≤ chunkSize) →
      ∀ c ∈ mergeGo chunkSize overlap sep current segs, c.length ≤ chunkSize := by
  intro segs
  induction segs with
  | nil =>
    intro current hcur _ c hc
    unfold mergeGo at hc
    cases current with
    | nil => cases hc
    | cons a t =>
      rw [List.mem_singleton] at hc
      subst hc
      rw [joinSep_length]
      exact hcur
  | cons seg rest ih =>
    intro current hcur hsegs c hc
    have hseg : seg.length ≤ chunkSize := hsegs seg (List.mem_cons_self seg rest)
    have hrest : ∀ s ∈ rest, s.length ≤ chunkSize :=
      fun s hs => hsegs s (List.mem_cons_of_mem seg hs)
    unfold mergeGo at hc
    by_cases hcond : current ≠ [] ∧
        chunkSize < weight sep.length current + sep.length + seg.length
    · rw [if_pos hcond] at hc
      rcases List.mem_cons.mp hc with hc | hc
      · subst hc
        rw [joinSep_length]
        exact hcur
      · refine ih (popOverlap chunkSize overlap sep.length seg.length current ++ [seg])
          ?_ hrest c hc
        rcases popOverlap_bound chunkSize overlap sep.length seg.length current with
          hp | hp
        · rw [hp]
          simpa [weight] using hseg
        · exact le_trans (weight_append_singleton_le sep.length
            (popOverlap chunkSize overlap sep.length seg.length current) seg) hp
    · rw [if_neg hcond] at hc
      refine ih (current ++ [seg]) ?_ hrest c hc
      rw [not_and_or, not_not, Nat.not_lt] at hcond
      rcases hcond with hcur0 | hfit
      · rw [hcur0]
        simpa [weight] using hseg
      · exact le_trans (weight_append_singleton_le sep.length current seg) hfit

theorem mergeRuns_bound (chunkSize overlap : Nat) (sep : String)
    (recFn : String → List String) :
    ∀ segs buffer : List String,
      (∀ s ∈ buffer, s.length ≤ chunkSize) →
      (∀ s ∈ segs, chunkSize < s.length → ∀ c ∈ recFn s, c.length ≤ chunkSize) →
      ∀ c ∈ mergeRuns chunkSize overlap sep recFn buffer segs,
        c.length ≤ chunkSize := by
  intro segs
  induction segs with
  | nil =>
    intro buffer hbuf _ c hc
    unfold mergeRuns at hc
    exact mergeGo_bound chunkSize overlap sep buffer [] (by simp [weight]) hbuf c hc
  | cons seg rest ih =>
    intro buffer hbuf hrec c hc
    have hrecr : ∀ s ∈ rest, chunkSize < s.length →
        ∀ c ∈ recFn s, c.length ≤ chunkSize :=
      fun s hs => hrec s (List.mem_cons_of_mem seg hs)
    unfold mergeRuns at hc
    by_cases hbig : chunkSize < seg.length
    · rw [if_pos hbig] at hc
      rcases List.mem_append.mp hc with hc | hc
      · rcases List.mem_append.mp hc with hc | hc
        · exact mergeGo_bound chunkSize overlap sep buffer [] (by simp [weight])
            hbuf c hc
        · exact hrec seg (List.mem_cons_self seg rest) hbig c hc
      · exact ih [] (by intro s hs; cases hs) hrecr c hc
    · rw [if_neg hbig] at hc
      refine ih (buffer ++ [seg]) ?_ hrecr c hc
      intro s hs
      rcases List.mem_append.mp hs with hs | hs
      · exact hbuf s hs
      · rw [List.mem_singleton] at hs
        subst hs
        exact Nat.not_lt.mp hbig

theorem split_text_bound (chunkSize overlap : Nat) (h1 : 0 < chunkSize) :
    ∀ seps : List String, "" ∈ seps →
      ∀ text : String, ∀ c ∈ split_text chunkSize overlap seps text,
        c.length ≤ chunkSize := by
  intro seps
  induction seps with
  | nil => intro h; cases h
  | cons sep rest ih =>
    intro hmem text c hc
    unfold split_text at hc
    by_cases hsep : sep = ""
    · subst hsep
      refine mergeRuns_bound chunkSize overlap ""
        (split_text chunkSize overlap rest)
        ((pySplit "" text).filter (fun s => s ≠ "")) []
        (by intro s hs; cases hs) ?_ c hc
      intro s hs hbig
      exfalso
      have hlen : s.length = 1 := by
        have hs' := (List.mem_filter.mp hs).1
        unfold pySplit at hs'
        rw [if_pos rfl, List.mem_map] at hs'
        rcases hs' with ⟨ch, _, rfl⟩
        rfl
      omega
    · have hrest : "" ∈ rest := by
        rcases List.mem_cons.mp hmem with h | h
        · exact absurd h.symm hsep
        · exact h
      refine mergeRuns_bound chunkSize overlap sep
        (split_text chunkSize overlap rest)
        ((pySplit sep text).filter (fun s => s ≠ "")) []
        (by intro s hs; cases hs) ?_ c hc
      intro s _ _ c' hc'
      exact ih hrest s c' hc'

/-! ### Claim theorems -/

/-- C1: on a query whose retrieval returns no chunks, `generate_response`
returns the fixed insufficient-information message — for every provider
registry state `m`, so no generation provider influences the result — and
that message is not the empty string. -/
theorem c1_empty_retrieval_degraded (m : LLMManager)
    (search : String → List CtxDoc) (query : String) (provider : Option String)
    (hsearch : search query = []) :
    generate_response m search query none provider = insufficientInfoMsg ∧
      insufficientInfoMsg ≠ "" := by
  constructor
  · simp [generate_response, hsearch]
  · decide

/-- Witness for C1 at a concrete empty retrieval. -/
theorem c1_empty_retrieval_degraded_witness :
    generate_response { llms := [], active_provider := none }
        (fun _ => []) "what is AI?" none none = insufficientInfoMsg ∧
      insufficientInfoMsg ≠ "" :=
  c1_empty_retrieval_degraded { llms := [], active_provider := none }
    (fun _ => []) "what is AI?" none rfl


/-- C3: with zero registered providers, `LLMManager.generate_response`
returns the fixed no-provider message for every request, and
`RAGPipeline.generate_response` on any non-empty context surfaces that same
message as its result (both are total functions: no exception path). -/
theorem c3_no_provider_soft_fail (m : LLMManager) (hm : m.llms = [])
    (messages : List Message) (provider : Option String)
    (search : String → List CtxDoc) (query : String) (ctx : List CtxDoc)
    (hctx : ctx ≠ []) :
    m.generate_response messages provider = noProviderMsg ∧
      generate_response m search query (some ctx) provider = noProviderMsg := by
  refine ⟨generate_response_nil_llms m hm messages provider, ?_⟩
  simp only [generate_response, if_neg hctx]
  exact generate_response_nil_llms m hm (ragMessages query ctx) provider

/-- Witness for C3: empty registry, one retrieved chunk. -/
theorem c3_no_provider_soft_fail_witness :
    LLMManager.generate_response { llms := [], active_provider := none }
        [⟨"user", "anything"⟩] none = noProviderMsg ∧
      generate_response { llms := [], active_provider := none } (fun _ => [])
        "anything" (some [⟨"some context"⟩]) none = noProviderMsg :=
  c3_no_provider_soft_fail { llms := [], active_provider := none } rfl
    [⟨"user", "anything"⟩] none (fun _ => []) "anything" [⟨"some context"⟩]
    (by decide)

/-- C4: ingesting an empty document list succeeds (`True` returned), leaves
the store unchanged, and its summary counts are 0 documents in and 0 chunks
stored. -/
theorem c4_ingest_empty (chunkSize overlap : Nat) (store : VectorStore) :
    process_documents chunkSize overlap store [] =
      { store := store, success := true, documentsIn := 0, chunksStored := 0 } :=
  rfl

/-- C5: ingestion assigns each chunk of a document the id
`sourceId ++ "_chunk_" ++ chunkIndex` with the index counting from 0, and
ingesting the identical document twice leaves the same chunk-id list in the
index as ingesting it once (upsert by id, no duplicates). -/
theorem c5_chunk_ids_idempotent (chunkSize overlap : Nat) (store : VectorStore)
    (doc : PyDoc) :
    (chunkDocs chunkSize overlap doc).map (fun c => c.id) =
        (List.range (split_text chunkSize overlap ragSeparators doc.text).length).map
          (fun i => doc.id ++ "_chunk_" ++ toString i) ∧
      storeIds (process_documents chunkSize overlap
          (process_documents chunkSize overlap store [doc]).store [doc]).store =
        storeIds (process_documents chunkSize overlap store [doc]).store := by
  refine ⟨chunkDocs_ids chunkSize overlap doc, ?_⟩
  have hstore : ∀ s : VectorStore,
      (process_documents chunkSize overlap s [doc]).store =
        (chunkDocs chunkSize overlap doc).foldl upsertOne s := by
    intro s
    simp [process_documents, add_documents]
  rw [hstore, hstore]
  apply storeIds_foldl_of_present
  intro c hc
  exact chunk_mem_storeIds_foldl (chunkDocs chunkSize overlap doc) store c hc

/-- C6: `set_active_provider` on a name that is not registered signals
failure (returns `False`) and leaves the whole manager state — the active
provider included — unchanged. -/
theorem c6_set_active_unknown (m : LLMManager) (name : String)
    (h : ∀ p ∈ m.llms, p.1 ≠ name) :
    m.set_active_provider name = (m, false) := by
  have hf : m.llms.find? (fun p => p.1 = name) = none := by
    rw [List.find?_eq_none]
    intro p hp
    simpa using h p hp
  simp [LLMManager.set_active_provider, hf]

/-- Witness for C6: a registry with one provider, switched to a name that is
not registered. -/
theorem c6_set_active_unknown_witness :
    LLMManager.set_active_provider
        { llms := [("openai", fun _ => "ok")], active_provider := some "openai" }
        "nonexistent" =
      ({ llms := [("openai", fun _ => "ok")], active_provider := some "openai" },
        false) :=
  c6_set_active_unknown
    { llms := [("openai", fun _ => "ok")], active_provider := some "openai" }
    "nonexistent" (by intro p hp; simp at hp; subst hp; decide)

/-- C7: on a non-empty retrieved context, `generate_response` invokes the
registry with exactly two turns — the assembled system instruction and a
user turn equal to the query; the system instruction carries every chunk's
labeled line in rank order, and the `k`-th line (0-based `k`) is labeled by
its 1-based rank `k+1` and carries that chunk's text. -/
theorem c7_prompt_assembly (m : LLMManager) (search : String → List CtxDoc)
    (query : String) (ctx : List CtxDoc) (provider : Option String)
    (hctx : ctx ≠ []) :
    generate_response m search query (some ctx) provider =
        m.generate_response
          [⟨"system", sysPrefix ++ context_text ctx ++ sysSuffix⟩,
            ⟨"user", query⟩] provider ∧
      appearsInOrder (labeledContext ctx) (system_message ctx) ∧
      ∀ k d, ctx[k]? = some d →
        (labeledContext ctx)[k]? =
          some ("Context " ++ toString (k + 1) ++ ": " ++ d.text) := by
  refine ⟨?_, ?_, fun k d h => labeledContext_getElem? ctx k d h⟩
  · simp [generate_response, if_neg hctx, ragMessages, system_message]
  · exact appearsInOrder_joinSep "\n\n" (labeledContext ctx) sysPrefix sysSuffix

/-- Witness for C7: a two-chunk context. -/
theorem c7_prompt_assembly_witness :
    generate_response { llms := [], active_provider := none } (fun _ => [])
        "what is AI?" (some [⟨"AI is a field."⟩, ⟨"ML is a subfield."⟩]) none =
        LLMManager.generate_response { llms := [], active_provider := none }
          [⟨"system",
              sysPrefix ++ context_text [⟨"AI is a field."⟩, ⟨"ML is a subfield."⟩] ++
                sysSuffix⟩,
            ⟨"user", "what is AI?"⟩] none ∧
      appearsInOrder (labeledContext [⟨"AI is a field."⟩, ⟨"ML is a subfield."⟩])
        (system_message [⟨"AI is a field."⟩, ⟨"ML is a subfield."⟩]) :=
  ⟨(c7_prompt_assembly { llms := [], active_provider := none } (fun _ => [])
      "what is AI?" [⟨"AI is a field."⟩, ⟨"ML is a subfield."⟩] none
      (by decide)).1,
    (c7_prompt_assembly { llms := [], active_provider := none } (fun _ => [])
      "what is AI?" [⟨"AI is a field."⟩, ⟨"ML is a subfield."⟩] none
      (by decide)).2.1⟩

/-- C8: with valid parameters (`0 < chunkSize`, `overlap < chunkSize`), every
chunk the splitter produces — the finest (character) separator level
included — has length at most `chunkSize`. -/
theorem c8_chunk_size_bound (chunkSize overlap : Nat) (text : String)
    (h1 : 0 < chunkSize) (h2 : overlap < chunkSize) :
    ∀ chunk ∈ split_text chunkSize overlap ragSeparators text,
      chunk.length ≤ chunkSize :=
  split_text_bound chunkSize overlap h1 ragSeparators (by decide) text

/-- Witness for C8: chunk size 5, overlap 2, a text needing the space and
character levels. -/
theorem c8_chunk_size_bound_witness :
    0 < 5 ∧ 2 < 5 ∧
      ∀ chunk ∈ split_text 5 2 ragSeparators "hello world this is a test",
        chunk.length ≤ 5 :=
  ⟨by decide, by decide,
    c8_chunk_size_bound 5 2 "hello world this is a test" (by decide) (by decide)⟩

/-- C9: `chat` reads only the last turn: on any history of length at least 2
whose last turn is a user turn, the answer equals `chat` on the last turn
alone. -/
theorem c9_chat_ignores_history (m : LLMManager)
    (search : String → List CtxDoc) (messages : List Message)
    (provider : Option String) (last : Message)
    (hlen : 2 ≤ messages.length) (hlast : messages.getLast? = some last)
    (hrole : last.role = "user") :
    chat m search messages provider = chat m search [last] provider := by
  simp [chat, hlast, hrole]

/-- Witness for C9: a two-turn history against the single last turn. -/
theorem c9_chat_ignores_history_witness :
    chat { llms := [], active_provider := none } (fun _ => [])
        [⟨"assistant", "hi"⟩, ⟨"user", "what is AI?"⟩] none =
      chat { llms := [], active_provider := none } (fun _ => [])
        [⟨"user", "what is AI?"⟩] none :=
  c9_chat_ignores_history { llms := [], active_provider := none } (fun _ => [])
    [⟨"assistant", "hi"⟩, ⟨"user", "what is AI?"⟩] none ⟨"user", "what is AI?"⟩
    (by decide) rfl rfl

/-- C2 counterexample: validation failures of `chat` are returned as plain
strings of the same type as ordinary answers — the empty turn list and a
non-user last turn each yield a fixed message string, not a structured
failure. -/
theorem c2_chat_validation_downgraded_cex :
    chat { llms := [], active_provider := none } (fun _ => []) [] none =
        "No messages provided" ∧
      chat { llms := [], active_provider := none } (fun _ => [])
        [⟨"assistant", "hi"⟩] none = "Last message must be from user" :=
  ⟨rfl, rfl⟩

/-- C2 (amended): `chat` on an empty turn list returns the plain string
"No messages provided", and on a last turn whose role is not `"user"` the
plain string "Last message must be from user"; the validation failure is
surfaced as an ordinary string result. -/
theorem c2_chat_validation_strings (m : LLMManager)
    (search : String → List CtxDoc) (messages : List Message)
    (provider : Option String) :
    (messages = [] → chat m search messages provider = "No messages provided") ∧
      (∀ last, messages.getLast? = some last → last.role ≠ "user" →
        chat m search messages provider = "Last message must be from user") := by
  constructor
  · intro h
    subst h
    rfl
  · intro last hlast hrole
    simp [chat, hlast, hrole]

/-- Witness for C2 (amended): a single assistant turn in last position. -/
theorem c2_chat_validation_strings_witness :
    chat { llms := [], active_provider := none } (fun _ => [])
        [⟨"assistant", "hi"⟩] none = "Last message must be from user" :=
  (c2_chat_validation_strings { llms := [], active_provider := none }
      (fun _ => []) [⟨"assistant", "hi"⟩] none).2
    ⟨"assistant", "hi"⟩ rfl (by decide)

/-- C10 counterexample: the empty string names no registered provider, yet
`generate_response` with it falls back to the active provider (Python's
`provider or self.active_provider` treats the empty string as falsy), so
the result is the active provider's answer, not the no-provider message. -/
theorem c10_empty_name_falls_back_cex :
    ("" ∉ ["openai"]) ∧
      (LLMManager.llms
          { llms := [("openai", fun _ => "answer from active provider")],
            active_provider := some "openai" }).map (fun p => p.1) = ["openai"] ∧
      LLMManager.generate_response
          { llms := [("openai", fun _ => "answer from active provider")],
            active_provider := some "openai" }
          [] (some "") = "answer from active provider" :=
  ⟨by decide, rfl, rfl⟩

/-- C10 (amended): for every non-empty provider name outside the registered
set, `generate_response` returns the fixed no-provider message and never
falls back to the active provider; the empty-string name is the one
exception, falling back by Python truthiness. -/
theorem c10_unknown_nonempty_name_no_fallback (m : LLMManager)
    (messages : List Message) (name : String) (hne : name ≠ "")
    (h : ∀ p ∈ m.llms, p.1 ≠ name) :
    m.generate_response messages (some name) = noProviderMsg := by
  have hf : m.llms.find? (fun p => p.1 = name) = none := by
    rw [List.find?_eq_none]
    intro p hp
    simpa using h p hp
  unfold LLMManager.generate_response LLMManager.get_llm
  rw [pyOrStr_some_ne name m.active_provider hne]
  simp [LLMManager.lookup, hf]

/-- Witness for C10 (amended): an unregistered non-empty name with a
different provider active. -/
theorem c10_unknown_nonempty_name_no_fallback_witness :
    LLMManager.generate_response
        { llms := [("openai", fun _ => "answer from active provider")],
          active_provider := some "openai" }
        [] (some "mistral") = noProviderMsg :=
  c10_unknown_nonempty_name_no_fallback
    { llms := [("openai", fun _ => "answer from active provider")],
      active_provider := some "openai" }
    [] "mistral" (by decide) (by intro p hp; simp at hp; subst hp; decide)

end RAG

